import Mathlib

/-!
Verification development for the SearchCloud command-line search utility
(`src/searchcloud/__init__.py`).  The Python source is shallowly embedded:
pure helpers become Lean functions, the generator-based line source becomes a
function producing a list of optional lines (the `none` element models the
Python `None` sentinel yielded on a read failure), and the post-argument-parsing
part of `main` becomes a function from a configuration, a file-system model and
the prior destination-file state to a run outcome.
-/

namespace SearchCloud

/-! ### Regular-expression engine

Models the fragment of the Python `re` dialect exercised by the program:
literal characters, backslash-escaped punctuation, `.` (which does not match a
newline), grouping, alternation and the `*`, `+`, `?` quantifiers.  Patterns
using constructs outside this fragment (character classes, anchors, counted
repeats, alphanumeric escapes) are outside the model.  Matching is defined by
Brzozowski derivatives; `rsearch` models `re.search` (a match anywhere in the
line).  With the ignore-case flag set, character comparison is modelled by
`Char.toLower` folding, matching CPython behaviour on the ASCII range. -/

inductive Regex where
  | nul : Regex
  | emp : Regex
  | lit : Char → Regex
  | dot : Regex
  | seq : Regex → Regex → Regex
  | alt : Regex → Regex → Regex
  | star : Regex → Regex
deriving DecidableEq

def nullable : Regex → Bool
  | .nul => false
  | .emp => true
  | .lit _ => false
  | .dot => false
  | .seq a b => nullable a && nullable b
  | .alt a b => nullable a || nullable b
  | .star _ => true

def charMatch (ci : Bool) (p c : Char) : Bool :=
  if ci then decide (p.toLower = c.toLower) else decide (p = c)

def deriv (ci : Bool) (c : Char) : Regex → Regex
  | .nul => .nul
  | .emp => .nul
  | .lit p => if charMatch ci p c then .emp else .nul
  | .dot => if c = '\n' then .nul else .emp
  | .seq a b => .alt (.seq (deriv ci c a) b) (if nullable a then deriv ci c b else .nul)
  | .alt a b => .alt (deriv ci c a) (deriv ci c b)
  | .star a => .seq (deriv ci c a) (.star a)

/-- Whether the pattern matches some (possibly empty) prefix of the input. -/
def matchesFrom (ci : Bool) (r : Regex) : List Char → Bool
  | [] => nullable r
  | c :: s => nullable r || matchesFrom ci (deriv ci c r) s

/-- Models `re.search`: the pattern matches somewhere inside the input. -/
def rsearch (ci : Bool) (r : Regex) : List Char → Bool
  | [] => nullable r
  | c :: s => matchesFrom ci r (c :: s) || rsearch ci r s

/-! ### `re.escape` and `re.compile`

`reSpecial` lists exactly the characters that CPython's `re.escape`
(Python >= 3.7) prefixes with a backslash.  `rlex`/`rparseGo` model
`re.compile` on the fragment described above: `none` models `re.error`. -/

def reSpecial (c : Char) : Bool :=
  decide (c ∈ ['(', ')', '[', ']', '{', '}', '?', '*', '+', '-', '|', '^', '$', '\\',
    '.', '&', '~', '#', ' ', '\t', '\n', '\r', '\x0B', '\x0C'])

def reEscape : List Char → List Char
  | [] => []
  | c :: rest => if reSpecial c then '\\' :: c :: reEscape rest else c :: reEscape rest

inductive RTok where
  | tlit : Char → RTok
  | tdot : RTok
  | topen : RTok
  | tclose : RTok
  | tbar : RTok
  | tstar : RTok
  | tplus : RTok
  | topt : RTok
deriving DecidableEq

def rlex : List Char → Option (List RTok)
  | [] => some []
  | c :: rest =>
    if c = '\\' then
      match rest with
      | [] => none
      | d :: rest' =>
        if d.isAlphanum then none
        else (rlex rest').map (fun ts => RTok.tlit d :: ts)
    else if c = '(' then (rlex rest).map (fun ts => RTok.topen :: ts)
    else if c = ')' then (rlex rest).map (fun ts => RTok.tclose :: ts)
    else if c = '|' then (rlex rest).map (fun ts => RTok.tbar :: ts)
    else if c = '*' then (rlex rest).map (fun ts => RTok.tstar :: ts)
    else if c = '+' then (rlex rest).map (fun ts => RTok.tplus :: ts)
    else if c = '?' then (rlex rest).map (fun ts => RTok.topt :: ts)
    else if c = '.' then (rlex rest).map (fun ts => RTok.tdot :: ts)
    else if c = '[' then none
    else if c = '{' then none
    else if c = '^' then none
    else if c = '$' then none
    else (rlex rest).map (fun ts => RTok.tlit c :: ts)

structure PFrame where
  alts : List Regex
  cur : List Regex
deriving DecidableEq

/-- Folds a reversed list of atoms into their concatenation. -/
def mkSeqR (atoms : List Regex) : Regex :=
  atoms.foldl (fun acc a => Regex.seq a acc) Regex.emp

/-- Folds a reversed list of completed alternatives plus the current branch. -/
def mkAltR (alts : List Regex) (cur : List Regex) : Regex :=
  alts.foldl (fun acc b => Regex.alt b acc) (mkSeqR cur)

def rparseGo : List PFrame → PFrame → List RTok → Option Regex
  | stk, fr, [] =>
    match stk with
    | [] => some (mkAltR fr.alts fr.cur)
    | _ :: _ => none
  | stk, fr, t :: ts =>
    match t with
    | .tlit c => rparseGo stk ⟨fr.alts, Regex.lit c :: fr.cur⟩ ts
    | .tdot => rparseGo stk ⟨fr.alts, Regex.dot :: fr.cur⟩ ts
    | .tstar =>
      match fr.cur with
      | [] => none
      | a :: rest => rparseGo stk ⟨fr.alts, Regex.star a :: rest⟩ ts
    | .tplus =>
      match fr.cur with
      | [] => none
      | a :: rest => rparseGo stk ⟨fr.alts, Regex.seq a (Regex.star a) :: rest⟩ ts
    | .topt =>
      match fr.cur with
      | [] => none
      | a :: rest => rparseGo stk ⟨fr.alts, Regex.alt a Regex.emp :: rest⟩ ts
    | .tbar => rparseGo stk ⟨mkSeqR fr.cur :: fr.alts, []⟩ ts
    | .topen => rparseGo (fr :: stk) ⟨[], []⟩ ts
    | .tclose =>
      match stk with
      | [] => none
      | parent :: stk' => rparseGo stk' ⟨parent.alts, mkAltR fr.alts fr.cur :: parent.cur⟩ ts

/-- Models `re.compile` on the fragment: `none` models `re.error`. -/
def parseRegex (cs : List Char) : Option Regex :=
  (rlex cs).bind (fun ts => rparseGo [] ⟨[], []⟩ ts)

/-- The concatenation of the literal characters of `cs`. -/
def litSeq (cs : List Char) : Regex :=
  cs.foldr (fun c r => Regex.seq (Regex.lit c) r) Regex.emp

/-! ### Line splitting and stripping

`pySplitlines` models Python's `str.splitlines` (used by the buffered reading
branch after `read_text`): it splits at every character of the full Unicode
line-boundary set, with `"\r\n"` consumed as a single boundary, and a final
segment only when non-empty.  `streamLinesRaw` models iterating over a file
opened in text mode (universal newlines): only `"\n"`, `"\r"` and `"\r\n"`
terminate lines.  `pyStrip` models `str.strip()` with the `str.isspace`
whitespace set. -/

def isNLCR (c : Char) : Bool := decide (c = '\n') || decide (c = '\r')

def isPyLineBoundary (c : Char) : Bool :=
  decide (c = '\n') || decide (c = '\r') || decide (c = '\x0B') || decide (c = '\x0C') ||
  decide (c = '\x1C') || decide (c = '\x1D') || decide (c = '\x1E') || decide (c = '\x85') ||
  decide (c = '\u2028') || decide (c = '\u2029')

/-- One splitting step per character; `skipNL` records that the previous
character was a `'\r'`, so that a directly following `'\n'` is consumed as
part of the same boundary. -/
def splitLinesBy (isB : Char → Bool) : Bool → List Char → List Char → List (List Char)
  | _, acc, [] => if acc = [] then [] else [acc.reverse]
  | skipNL, acc, c :: rest =>
    if skipNL && decide (c = '\n') then splitLinesBy isB false acc rest
    else if c = '\r' then acc.reverse :: splitLinesBy isB true [] rest
    else if isB c then acc.reverse :: splitLinesBy isB false [] rest
    else splitLinesBy isB false (c :: acc) rest

def pySplitlines (cs : List Char) : List (List Char) := splitLinesBy isPyLineBoundary false [] cs

def streamLinesRaw (cs : List Char) : List (List Char) := splitLinesBy isNLCR false [] cs

def isPySpace (c : Char) : Bool :=
  decide (c = ' ') || decide (c = '\t') || decide (c = '\n') || decide (c = '\r') ||
  decide (c = '\x0B') || decide (c = '\x0C') || decide (c = '\x1C') || decide (c = '\x1D') ||
  decide (c = '\x1E') || decide (c = '\x1F') || decide (c = '\x85') || decide (c = '\xA0') ||
  decide (c = '\u1680') || (decide ('\u2000' ≤ c) && decide (c ≤ '\u200A')) ||
  decide (c = '\u2028') || decide (c = '\u2029') || decide (c = '\u202F') ||
  decide (c = '\u205F') || decide (c = '\u3000')

def pyStrip (cs : List Char) : List Char :=
  ((cs.dropWhile isPySpace).reverse.dropWhile isPySpace).reverse

/-! ### File enumeration (`ler_arquivos`)

A `SCFile` models one on-disk file: `raw` is the text that decodes
successfully, and `err = true` means a read or decode failure occurs after
that text (for the buffered `read_text` call, which is atomic, any failure
means no text is delivered at all).  A directory root is modelled by the list
of its recursive descendants in descent order, each with its basename and a
regular-file flag.  `fnmatchList` models the basename part `*.extension` of
the `glob` pattern built by the source (`fnmatch` without character classes):
`*` matches any sequence, `?` any single character. -/

structure SCFile where
  name : String
  raw : String
  err : Bool
deriving DecidableEq

structure DirEntry where
  file : SCFile
  isFile : Bool
deriving DecidableEq

inductive Root where
  | file : SCFile → Root
  | dir : List DirEntry → Root
deriving DecidableEq

def fnmatchList : List Char → List Char → Bool
  | [], s => s.isEmpty
  | p :: ps, s =>
    if p = '*' then (s.tails).any (fun t => fnmatchList ps t)
    else
      match s with
      | [] => false
      | c :: s' => (decide (p = '?') || decide (p = c)) && fnmatchList ps s'

/-- Models `ler_arquivos`: a file root is returned as a singleton ignoring the
extension; a directory root yields its descendant regular files whose basename
matches the glob pattern built from the extension. -/
def ler_arquivos (root : Root) (extensao : String) : List SCFile :=
  match root with
  | .file f => [f]
  | .dir entries =>
    (entries.filter
      (fun e => fnmatchList ('*' :: '.' :: extensao.data) e.file.name.data && e.isFile)).map
      (fun e => e.file)

/-! ### Line source (`ler_arquivo`)

Produces the sequence of values the Python generator yields: `some line` for
each line, and one terminal `none` sentinel when a read/decode failure
occurs.  In buffered mode `read_text` fails before any line can be produced;
in streaming mode the lines of the successfully decoded prefix are produced
first. -/

def ler_arquivo (buffer : Bool) (f : SCFile) : List (Option String) :=
  if buffer then
    if f.err then [none]
    else (pySplitlines f.raw.data).map (fun l => some (String.mk l))
  else
    ((streamLinesRaw f.raw.data).map (fun l => some (String.mk (pyStrip l)))) ++
      (if f.err then [none] else [])

/-! ### Matching and the collector (`buscar_termo`, `main`) -/

abbrev Matcher := Regex × Bool

/-- Models `re.search(termo, linha)` returning whether a match exists. -/
def matcherTrue (m : Matcher) (s : String) : Bool := rsearch m.2 m.1 s.data

/-- Models `buscar_termo`: the line itself when the pattern is found, else
`None`. -/
def buscar_termo (linha : String) (termo : Matcher) : Option String :=
  if matcherTrue termo linha then some linha else none

/-- Python truthiness of an `str | None` value: `None` and the empty string
are falsy. -/
def truthy (o : Option String) : Bool :=
  match o with
  | none => false
  | some s => !s.data.isEmpty

structure Config where
  termo : String
  regex : Bool
  ignorecase : Bool
  extensao : String
  salvar : Option String
  buffer : Bool
deriving DecidableEq

/-- Models the `_termo` compilation in `main`: the raw term when `--regex` is
set, the escaped term otherwise, with the ignore-case flag attached. -/
def compileTermo (cfg : Config) : Option Matcher :=
  if cfg.regex then (parseRegex cfg.termo.data).map (fun r => (r, cfg.ignorecase))
  else (parseRegex (reEscape cfg.termo.data)).map (fun r => (r, cfg.ignorecase))

inductive Event where
  | enumerate : Nat → Event
  | openDest : Event
  | readFile : String → Event
deriving DecidableEq

inductive MainError where
  | invalidPattern : MainError
deriving DecidableEq

/-- Outcome of a run: the chronological I/O events, the uncaught error if
any, the reported total if the run reaches the report, and the destination
file's final on-disk content (`none` when the file does not exist). -/
structure RunOutcome where
  events : List Event
  error : Option MainError
  total : Option Nat
  dest : Option String
deriving DecidableEq

/-- The no-sink counting loop of `main`. -/
def countAll (m : Matcher) (buffer : Bool) (files : List SCFile) : Nat :=
  files.foldl (fun acc f =>
    (ler_arquivo buffer f).foldl (fun a l =>
      match l with
      | none => a
      | some s => if truthy (buscar_termo s m) then a + 1 else a) acc) 0

/-- The buffered save loop of `main`: the in-memory `LINHAS` list. -/
def collectBuffered (m : Matcher) (files : List SCFile) : List String :=
  files.foldl (fun acc f =>
    (ler_arquivo true f).foldl (fun a l =>
      match l with
      | none => a
      | some s => if truthy (buscar_termo s m) then a ++ [s] else a) acc) []

/-- The streaming save loop of `main`: running total and the text written to
the (truncated) destination. -/
def streamSave (m : Matcher) (files : List SCFile) : Nat × String :=
  files.foldl (fun st f =>
    (ler_arquivo false f).foldl (fun st2 l =>
      match l with
      | none => st2
      | some s =>
        if truthy (buscar_termo s m) then (st2.1 + 1, st2.2 ++ s ++ "\n") else st2) st) (0, "")

/-- Each line followed by one newline, concatenated. -/
def joinedNL (ls : List String) : String :=
  ls.foldr (fun s acc => s ++ "\n" ++ acc) ""

/-- All lines the line source delivers over `files`, in order, sentinels
dropped. -/
def producedLines (buffer : Bool) (files : List SCFile) : List String :=
  files.foldr (fun f acc => ((ler_arquivo buffer f).filterMap id) ++ acc) []

/-- The produced lines the collector keeps (Python-truthy match result). -/
def matchedLines (m : Matcher) (buffer : Bool) (files : List SCFile) : List String :=
  (producedLines buffer files).filter (fun s => truthy (buscar_termo s m))

/-- The collector-kept lines contributed by a single file, in order: the
sentinel is dropped and the Python-truthy match test is applied. -/
def perFileMatchedLines (m : Matcher) (buffer : Bool) (f : SCFile) : List String :=
  ((ler_arquivo buffer f).filterMap id).filter (fun s => truthy (buscar_termo s m))

/-- Number of collector-kept lines contributed by a single file. -/
def perFileMatched (m : Matcher) (buffer : Bool) (f : SCFile) : Nat :=
  (perFileMatchedLines m buffer f).length

/-- Models `main` after argument parsing: `cfg` is the parsed configuration,
`root` the file system under the requested root path, and `prior` the
destination file's content before the run (`none` when absent).  Banners and
messages are omitted; opening the destination is assumed to succeed. -/
def mainRun (cfg : Config) (root : Root) (prior : Option String) : RunOutcome :=
  let arquivos := ler_arquivos root cfg.extensao
  if arquivos = [] then
    ⟨[Event.enumerate arquivos.length], none, none, prior⟩
  else
    match compileTermo cfg with
    | none => ⟨[Event.enumerate arquivos.length], some MainError.invalidPattern, none, prior⟩
    | some m =>
      match cfg.salvar with
      | some _ =>
        if cfg.buffer then
          ⟨Event.enumerate arquivos.length :: arquivos.map (fun f => Event.readFile f.name),
            none, some (collectBuffered m arquivos).length, prior⟩
        else
          ⟨Event.enumerate arquivos.length :: Event.openDest ::
              arquivos.map (fun f => Event.readFile f.name),
            none, some (streamSave m arquivos).1, some (streamSave m arquivos).2⟩
      | none =>
        ⟨Event.enumerate arquivos.length :: arquivos.map (fun f => Event.readFile f.name),
          none, some (countAll m cfg.buffer arquivos), prior⟩

/-! ### Matching lemmas: a concatenation of literals searches for a substring -/

theorem matchesFrom_nul (ci : Bool) (s : List Char) : matchesFrom ci Regex.nul s = false := by
  induction s with
  | nil => rfl
  | cons c s ih => simp [matchesFrom, deriv, nullable, ih]

theorem matchesFrom_alt (ci : Bool) (s : List Char) :
    ∀ a b : Regex, matchesFrom ci (Regex.alt a b) s =
      (matchesFrom ci a s || matchesFrom ci b s) := by
  induction s with
  | nil => intro a b; rfl
  | cons c s ih =>
    intro a b
    simp only [matchesFrom, deriv, nullable, ih]
    cases nullable a <;> cases nullable b <;>
      cases matchesFrom ci (deriv ci c a) s <;> cases matchesFrom ci (deriv ci c b) s <;> rfl

theorem matchesFrom_seq_nul (ci : Bool) (s : List Char) :
    ∀ r : Regex, matchesFrom ci (Regex.seq Regex.nul r) s = false := by
  induction s with
  | nil => intro r; rfl
  | cons c s ih =>
    intro r
    simp [matchesFrom, deriv, nullable, matchesFrom_alt, matchesFrom_nul, ih]

theorem matchesFrom_seq_emp (ci : Bool) (r : Regex) (s : List Char) :
    matchesFrom ci (Regex.seq Regex.emp r) s = matchesFrom ci r s := by
  cases s with
  | nil => simp [matchesFrom, nullable]
  | cons c s =>
    simp [matchesFrom, deriv, nullable, matchesFrom_alt, matchesFrom_seq_nul]

theorem matchesFrom_litSeq (cs : List Char) :
    ∀ s : List Char, matchesFrom false (litSeq cs) s = true ↔ cs <+: s := by
  induction cs with
  | nil =>
    intro s
    cases s <;> simp [litSeq, matchesFrom, nullable]
  | cons p cs ih =>
    intro s
    cases s with
    | nil => simp [litSeq, matchesFrom, nullable]
    | cons c s =>
      by_cases hpc : p = c
      · subst hpc
        simp [litSeq, matchesFrom, nullable, deriv, charMatch, matchesFrom_alt,
          matchesFrom_nul, matchesFrom_seq_emp, List.cons_prefix_cons]
        exact ih s
      · simp [litSeq, matchesFrom, nullable, deriv, charMatch, hpc, matchesFrom_alt,
          matchesFrom_nul, matchesFrom_seq_nul, List.cons_prefix_cons]

theorem rsearch_litSeq (cs : List Char) :
    ∀ s : List Char, rsearch false (litSeq cs) s = true ↔ cs <:+: s := by
  intro s
  induction s with
  | nil =>
    have h := matchesFrom_litSeq cs []
    simp only [matchesFrom] at h
    simp only [rsearch, h, List.infix_nil, List.prefix_nil]
  | cons c s ih =>
    simp only [rsearch, Bool.or_eq_true, ih, matchesFrom_litSeq, List.infix_cons_iff]

/-! ### Compiling an escaped term yields the literal concatenation -/

theorem reSpecial_not_alnum (c : Char) (h : reSpecial c = true) : c.isAlphanum = false := by
  simp only [reSpecial, decide_eq_true_eq] at h
  fin_cases h <;> decide

theorem rlex_reEscape (t : List Char) : rlex (reEscape t) = some (t.map RTok.tlit) := by
  induction t with
  | nil => rfl
  | cons c t ih =>
    by_cases hs : reSpecial c = true
    · have hna : c.isAlphanum = false := reSpecial_not_alnum c hs
      simp [reEscape, hs, rlex, hna, ih]
    · have h1 : c ≠ '\\' := fun h => hs (by subst h; decide)
      have h2 : c ≠ '(' := fun h => hs (by subst h; decide)
      have h3 : c ≠ ')' := fun h => hs (by subst h; decide)
      have h4 : c ≠ '|' := fun h => hs (by subst h; decide)
      have h5 : c ≠ '*' := fun h => hs (by subst h; decide)
      have h6 : c ≠ '+' := fun h => hs (by subst h; decide)
      have h7 : c ≠ '?' := fun h => hs (by subst h; decide)
      have h8 : c ≠ '.' := fun h => hs (by subst h; decide)
      have h9 : c ≠ '[' := fun h => hs (by subst h; decide)
      have h10 : c ≠ '{' := fun h => hs (by subst h; decide)
      have h11 : c ≠ '^' := fun h => hs (by subst h; decide)
      have h12 : c ≠ '$' := fun h => hs (by subst h; decide)
      simp only [reEscape, hs, if_false, Bool.false_eq_true, ite_false]
      rw [show rlex (c :: reEscape t) = (rlex (reEscape t)).map (fun ts => RTok.tlit c :: ts) from ?pf]
      · simp [ih]
      case pf =>
        conv_lhs => rw [rlex.eq_def]
        simp [h1, h2, h3, h4, h5, h6, h7, h8, h9, h10, h11, h12]

theorem rparseGo_tlits (t : List Char) :
    ∀ cur : List Regex, rparseGo [] ⟨[], cur⟩ (t.map RTok.tlit) =
      some (mkSeqR ((t.map Regex.lit).reverse ++ cur)) := by
  induction t with
  | nil => intro cur; simp [rparseGo, mkAltR]
  | cons c t ih =>
    intro cur
    simp only [List.map_cons, rparseGo]
    rw [ih (Regex.lit c :: cur)]
    simp

theorem mkSeqR_reverse (cs : List Char) : mkSeqR ((cs.map Regex.lit).reverse) = litSeq cs := by
  simp [mkSeqR, litSeq, List.foldl_reverse, List.foldr_map]

theorem parseRegex_reEscape (t : List Char) : parseRegex (reEscape t) = some (litSeq t) := by
  rw [parseRegex, rlex_reEscape, Option.bind, rparseGo_tlits t []]
  simp [mkSeqR_reverse]

theorem compileTermo_noRegex (cfg : Config) (hr : cfg.regex = false) :
    compileTermo cfg = some (litSeq cfg.termo.data, cfg.ignorecase) := by
  simp [compileTermo, hr, parseRegex_reEscape]

/-! ### Glob matching of a literal pattern is a suffix test -/

theorem fnmatchList_lits (q : List Char) :
    ∀ s : List Char, (∀ c ∈ q, c ≠ '*' ∧ c ≠ '?') → (fnmatchList q s = true ↔ s = q) := by
  induction q with
  | nil => intro s _; cases s <;> simp [fnmatchList]
  | cons p q ih =>
    intro s hq
    have hp := hq p (by simp)
    have hq' : ∀ c ∈ q, c ≠ '*' ∧ c ≠ '?' := fun c hc => hq c (by simp [hc])
    cases s with
    | nil => simp [fnmatchList, hp.1]
    | cons c s =>
      simp only [fnmatchList, hp.1, ite_false, if_false, Bool.and_eq_true, Bool.or_eq_true,
        decide_eq_true_eq, hp.2, false_or, ih s hq', List.cons.injEq]
      constructor
      · rintro ⟨hc, hs⟩; exact ⟨hc.symm, hs⟩
      · rintro ⟨hc, hs⟩; exact ⟨hc.symm, hs⟩

theorem fnmatchList_star (q : List Char) (hq : ∀ c ∈ q, c ≠ '*' ∧ c ≠ '?')
    (s : List Char) : fnmatchList ('*' :: q) s = true ↔ q <:+ s := by
  have hstep : fnmatchList ('*' :: q) s = (s.tails).any (fun t => fnmatchList q t) := by
    simp [fnmatchList]
  rw [hstep, List.any_eq_true]
  constructor
  · rintro ⟨t, ht, hm⟩
    rw [fnmatchList_lits q t hq] at hm
    exact (List.mem_tails _ _).1 (hm ▸ ht)
  · intro hsuf
    exact ⟨q, (List.mem_tails _ _).2 hsuf, (fnmatchList_lits q q hq).2 rfl⟩

/-! ### Splitting with agreeing boundary sets agrees -/

theorem splitLinesBy_congr (isB1 isB2 : Char → Bool) (cs : List Char) :
    ∀ (skipNL : Bool) (acc : List Char), (∀ c ∈ cs, isB1 c = isB2 c) →
      splitLinesBy isB1 skipNL acc cs = splitLinesBy isB2 skipNL acc cs := by
  induction cs with
  | nil => intro skipNL acc _; rfl
  | cons c rest ih =>
    intro skipNL acc h
    have hc : isB1 c = isB2 c := h c (by simp)
    have hrest : ∀ x ∈ rest, isB1 x = isB2 x := fun x hx => h x (by simp [hx])
    have ihh : ∀ (sk : Bool) (a : List Char),
        splitLinesBy isB1 sk a rest = splitLinesBy isB2 sk a rest :=
      fun sk a => ih sk a hrest
    simp only [splitLinesBy, hc, ihh]

/-! ### The collector folds compute filtered line lists -/

theorem countFold (m : Matcher) (ls : List (Option String)) :
    ∀ a : Nat,
      ls.foldl (fun a l =>
        match l with
        | none => a
        | some s => if truthy (buscar_termo s m) then a + 1 else a) a =
      a + ((ls.filterMap id).filter (fun s => truthy (buscar_termo s m))).length := by
  induction ls with
  | nil => intro a; simp
  | cons l ls ih =>
    intro a
    cases l with
    | none => simpa [List.filterMap_cons] using ih a
    | some s =>
      simp only [List.foldl_cons]
      rw [ih]
      by_cases h : truthy (buscar_termo s m) = true
      · simp [List.filterMap_cons, List.filter_cons, h]
        omega
      · simp only [Bool.not_eq_true] at h
        simp [List.filterMap_cons, List.filter_cons, h]

theorem countAll_eq (m : Matcher) (buffer : Bool) (files : List SCFile) :
    countAll m buffer files = (matchedLines m buffer files).length := by
  suffices hgen : ∀ a : Nat,
      files.foldl (fun acc f =>
        (ler_arquivo buffer f).foldl (fun a l =>
          match l with
          | none => a
          | some s => if truthy (buscar_termo s m) then a + 1 else a) acc) a =
      a + (matchedLines m buffer files).length by
    simpa [countAll] using hgen 0
  induction files with
  | nil => intro a; simp [matchedLines, producedLines]
  | cons f fs ih =>
    intro a
    rw [List.foldl_cons, ih, countFold]
    simp only [matchedLines, producedLines, List.foldr_cons, List.filter_append,
      List.length_append]
    omega

theorem countAll_eq_sum (m : Matcher) (buffer : Bool) (files : List SCFile) :
    countAll m buffer files = (files.map (perFileMatched m buffer)).sum := by
  rw [countAll_eq]
  induction files with
  | nil => simp [matchedLines, producedLines]
  | cons f fs ih =>
    simp only [matchedLines, producedLines, List.foldr_cons, List.filter_append,
      List.length_append, List.map_cons, List.sum_cons, perFileMatched,
      perFileMatchedLines]
    exact congrArg (_ + ·) ih

theorem collectFold (m : Matcher) (ls : List (Option String)) :
    ∀ acc : List String,
      ls.foldl (fun a l =>
        match l with
        | none => a
        | some s => if truthy (buscar_termo s m) then a ++ [s] else a) acc =
      acc ++ (ls.filterMap id).filter (fun s => truthy (buscar_termo s m)) := by
  induction ls with
  | nil => intro acc; simp
  | cons l ls ih =>
    intro acc
    cases l with
    | none => simpa [List.filterMap_cons] using ih acc
    | some s =>
      simp only [List.foldl_cons]
      rw [ih]
      by_cases h : truthy (buscar_termo s m) = true
      · simp [List.filterMap_cons, List.filter_cons, h]
      · simp only [Bool.not_eq_true] at h
        simp [List.filterMap_cons, List.filter_cons, h]

theorem collectBuffered_eq (m : Matcher) (files : List SCFile) :
    collectBuffered m files = matchedLines m true files := by
  suffices hgen : ∀ acc : List String,
      files.foldl (fun acc f =>
        (ler_arquivo true f).foldl (fun a l =>
          match l with
          | none => a
          | some s => if truthy (buscar_termo s m) then a ++ [s] else a) acc) acc =
      acc ++ matchedLines m true files by
    simpa [collectBuffered] using hgen []
  induction files with
  | nil => intro acc; simp [matchedLines, producedLines]
  | cons f fs ih =>
    intro acc
    rw [List.foldl_cons, ih, collectFold]
    simp only [matchedLines, producedLines, List.foldr_cons, List.filter_append,
      List.append_assoc]

theorem joinedNL_append (a b : List String) :
    joinedNL (a ++ b) = joinedNL a ++ joinedNL b := by
  induction a with
  | nil => simp [joinedNL]
  | cons s a ih =>
    show (s ++ "\n") ++ joinedNL (a ++ b) = ((s ++ "\n") ++ joinedNL a) ++ joinedNL b
    rw [ih]
    exact (String.append_assoc _ _ _).symm

theorem streamFold (m : Matcher) (ls : List (Option String)) :
    ∀ st : Nat × String,
      ls.foldl (fun st2 l =>
        match l with
        | none => st2
        | some s =>
          if truthy (buscar_termo s m) then (st2.1 + 1, st2.2 ++ s ++ "\n") else st2) st =
      (st.1 + ((ls.filterMap id).filter (fun s => truthy (buscar_termo s m))).length,
       st.2 ++ joinedNL ((ls.filterMap id).filter (fun s => truthy (buscar_termo s m)))) := by
  induction ls with
  | nil => intro st; simp [joinedNL]
  | cons l ls ih =>
    intro st
    cases l with
    | none => simpa [List.filterMap_cons] using ih st
    | some s =>
      simp only [List.foldl_cons]
      rw [ih]
      by_cases h : truthy (buscar_termo s m) = true
      · simp only [List.filterMap_cons, id, h, if_true, List.filter_cons,
          List.length_cons, joinedNL, List.foldr_cons, Prod.mk.injEq]
        constructor
        · omega
        · simp [String.append_assoc]
      · simp only [Bool.not_eq_true] at h
        simp [List.filterMap_cons, List.filter_cons, h]

theorem streamSave_eq (m : Matcher) (files : List SCFile) :
    streamSave m files =
      ((matchedLines m false files).length, joinedNL (matchedLines m false files)) := by
  suffices hgen : ∀ st : Nat × String,
      files.foldl (fun st f =>
        (ler_arquivo false f).foldl (fun st2 l =>
          match l with
          | none => st2
          | some s =>
            if truthy (buscar_termo s m) then (st2.1 + 1, st2.2 ++ s ++ "\n") else st2) st) st =
      (st.1 + (matchedLines m false files).length,
       st.2 ++ joinedNL (matchedLines m false files)) by
    simpa [streamSave] using hgen (0, "")
  induction files with
  | nil => intro st; simp [matchedLines, producedLines, joinedNL]
  | cons f fs ih =>
    intro st
    rw [List.foldl_cons, ih, streamFold]
    simp only [matchedLines, producedLines, List.foldr_cons, List.filter_append,
      List.length_append, joinedNL_append, Prod.mk.injEq]
    constructor
    · omega
    · simp [String.append_assoc]

theorem truthy_buscar (s : String) (m : Matcher) :
    truthy (buscar_termo s m) = (matcherTrue m s && !s.data.isEmpty) := by
  by_cases h : matcherTrue m s = true <;> simp [buscar_termo, truthy, h]

theorem matchedLines_concat (m : Matcher) (b : Bool) (files : List SCFile) :
    matchedLines m b files =
      files.foldr (fun f acc => perFileMatchedLines m b f ++ acc) [] := by
  induction files with
  | nil => rfl
  | cons f fs ih =>
    have h1 : matchedLines m b (f :: fs) =
        perFileMatchedLines m b f ++ matchedLines m b fs := by
      unfold matchedLines producedLines perFileMatchedLines
      simp only [List.foldr_cons, List.filter_append]
    rw [h1, ih, List.foldr_cons]

theorem matchedLines_length_sum (m : Matcher) (b : Bool) (files : List SCFile) :
    (matchedLines m b files).length = (files.map (perFileMatched m b)).sum :=
  (countAll_eq m b files).symm.trans (countAll_eq_sum m b files)

/-! ### Branch lemmas for `mainRun` -/

theorem mainRun_noSink (cfg : Config) (root : Root) (prior : Option String) (m : Matcher)
    (hs : cfg.salvar = none) (hm : compileTermo cfg = some m)
    (hne : ler_arquivos root cfg.extensao ≠ []) :
    mainRun cfg root prior =
      ⟨Event.enumerate (ler_arquivos root cfg.extensao).length ::
          (ler_arquivos root cfg.extensao).map (fun f => Event.readFile f.name),
        none, some (countAll m cfg.buffer (ler_arquivos root cfg.extensao)), prior⟩ := by
  simp [mainRun, hne, hm, hs]

theorem mainRun_bufferedSave (cfg : Config) (root : Root) (prior : Option String)
    (m : Matcher) (d : String) (hs : cfg.salvar = some d) (hb : cfg.buffer = true)
    (hm : compileTermo cfg = some m) (hne : ler_arquivos root cfg.extensao ≠ []) :
    mainRun cfg root prior =
      ⟨Event.enumerate (ler_arquivos root cfg.extensao).length ::
          (ler_arquivos root cfg.extensao).map (fun f => Event.readFile f.name),
        none, some (collectBuffered m (ler_arquivos root cfg.extensao)).length, prior⟩ := by
  simp [mainRun, hne, hm, hs, hb]

theorem mainRun_streamSave (cfg : Config) (root : Root) (prior : Option String)
    (m : Matcher) (d : String) (hs : cfg.salvar = some d) (hb : cfg.buffer = false)
    (hm : compileTermo cfg = some m) (hne : ler_arquivos root cfg.extensao ≠ []) :
    mainRun cfg root prior =
      ⟨Event.enumerate (ler_arquivos root cfg.extensao).length :: Event.openDest ::
          (ler_arquivos root cfg.extensao).map (fun f => Event.readFile f.name),
        none, some (streamSave m (ler_arquivos root cfg.extensao)).1,
        some (streamSave m (ler_arquivos root cfg.extensao)).2⟩ := by
  simp [mainRun, hne, hm, hs, hb]

theorem mainRun_invalid (cfg : Config) (root : Root) (prior : Option String)
    (hm : compileTermo cfg = none) (hne : ler_arquivos root cfg.extensao ≠ []) :
    mainRun cfg root prior =
      ⟨[Event.enumerate (ler_arquivos root cfg.extensao).length],
        some MainError.invalidPattern, none, prior⟩ := by
  simp [mainRun, hne, hm]

theorem mainRun_noFiles (cfg : Config) (root : Root) (prior : Option String)
    (he : ler_arquivos root cfg.extensao = []) :
    mainRun cfg root prior = ⟨[Event.enumerate 0], none, none, prior⟩ := by
  simp [mainRun, he]

/-! ### Claim theorems -/

/-- Claim C1, behaviour of the code at the failing input: in save mode with
buffered line-source mode the run counts the collected lines and reports
success, but never opens or writes the destination file, whose prior content
is left untouched — the specification instead requires the collected lines to
be written to the destination (joined by newlines, file overwritten), which
here would have produced content `"a"`. -/
theorem c1_buffered_save_never_writes :
    mainRun (Config.mk "a" false false "txt" (some "out.txt") true)
        (Root.file (SCFile.mk "f.txt" "a\n" false)) (some "old") =
      RunOutcome.mk [Event.enumerate 1, Event.readFile "f.txt"] none (some 1) (some "old") ∧
    (mainRun (Config.mk "a" false false "txt" (some "out.txt") true)
        (Root.file (SCFile.mk "f.txt" "a\n" false)) (some "old")).dest ≠ some "a" := by
  decide

/-- Claim C2 counterexample: with regex mode, the malformed pattern `"("` and
one candidate file, the run does fail with the invalid-pattern error, but file
enumeration has already been performed before the error — contradicting the
claim that the run aborts before any file I/O. -/
theorem c2_counterexample :
    (mainRun (Config.mk "(" true false "txt" none false)
        (Root.file (SCFile.mk "f.txt" "" false)) none).error =
      some MainError.invalidPattern ∧
    Event.enumerate 1 ∈ (mainRun (Config.mk "(" true false "txt" none false)
        (Root.file (SCFile.mk "f.txt" "" false)) none).events := by
  decide

/-- Claim C2 amended: with regex mode and a malformed pattern, when at least
one candidate file is enumerated the run aborts with the invalid-pattern error
after file enumeration but before any file content is read or the destination
is touched; with zero candidates the run exits successfully without ever
compiling the pattern. -/
theorem c2_amended (cfg : Config) (root : Root) (prior : Option String)
    (hre : cfg.regex = true) (hbad : parseRegex cfg.termo.data = none) :
    (ler_arquivos root cfg.extensao ≠ [] →
      mainRun cfg root prior =
        ⟨[Event.enumerate (ler_arquivos root cfg.extensao).length],
          some MainError.invalidPattern, none, prior⟩) ∧
    (ler_arquivos root cfg.extensao = [] →
      mainRun cfg root prior = ⟨[Event.enumerate 0], none, none, prior⟩) := by
  have hm : compileTermo cfg = none := by simp [compileTermo, hre, hbad]
  exact ⟨fun hne => mainRun_invalid cfg root prior hm hne,
    fun he => mainRun_noFiles cfg root prior he⟩

/-- Witness for the amended claim C2 at a concrete run. -/
theorem c2_amended_witness :
    mainRun (Config.mk "(" true false "txt" none false)
        (Root.dir [DirEntry.mk (SCFile.mk "g.txt" "" false) true]) none =
      RunOutcome.mk [Event.enumerate 1] (some MainError.invalidPattern) none none := by
  have h := (c2_amended (Config.mk "(" true false "txt" none false)
      (Root.dir [DirEntry.mk (SCFile.mk "g.txt" "" false) true]) none rfl
      (by decide)).1 (by decide)
  exact h.trans (by decide)

/-- Claim C3 counterexample: in no-sink mode with the (valid) empty literal
term, whose compiled pattern matches every line including the empty one, the
file yields the two lines `"x"` and `""`, both matched by the pattern, yet the
reported total is 1, not 2: the collector tests Python truthiness of the
returned line, which drops the empty line. -/
theorem c3_counterexample :
    (mainRun (Config.mk "" false false "txt" none false)
        (Root.file (SCFile.mk "f.txt" "x\n\n" false)) none).total = some 1 ∧
    compileTermo (Config.mk "" false false "txt" none false) = some (litSeq [], false) ∧
    ((producedLines false (ler_arquivos (Root.file (SCFile.mk "f.txt" "x\n\n" false))
        "txt")).filter (fun s => matcherTrue (litSeq [], false) s)).length = 2 := by
  decide

/-- Claim C3 amended: in no-sink mode the reported total equals the number of
produced lines that are non-empty and on which the compiled matcher returns
true (an empty line matched by the pattern is not counted, because the
collector tests truthiness of the returned line). -/
theorem c3_amended (cfg : Config) (root : Root) (prior : Option String) (m : Matcher)
    (hs : cfg.salvar = none) (hm : compileTermo cfg = some m)
    (hne : ler_arquivos root cfg.extensao ≠ []) :
    (mainRun cfg root prior).total =
      some (((producedLines cfg.buffer (ler_arquivos root cfg.extensao)).filter
        (fun s => matcherTrue m s && !s.data.isEmpty)).length) := by
  rw [mainRun_noSink cfg root prior m hs hm hne]
  show some (countAll m cfg.buffer (ler_arquivos root cfg.extensao)) = _
  rw [countAll_eq]
  have hfil : matchedLines m cfg.buffer (ler_arquivos root cfg.extensao) =
      (producedLines cfg.buffer (ler_arquivos root cfg.extensao)).filter
        (fun s => matcherTrue m s && !s.data.isEmpty) := by
    unfold matchedLines
    exact List.filter_congr (fun s _ => truthy_buscar s m)
  rw [hfil]

/-- Witness for the amended claim C3: the end-to-end example of the
specification (term `"apple"`, no flags) reports exactly one match. -/
theorem c3_amended_witness :
    (mainRun (Config.mk "apple" false false "txt" none false)
        (Root.file (SCFile.mk "f.txt" "apple\nbanana\nApple pie\n" false)) none).total =
      some 1 := by
  have h := c3_amended (Config.mk "apple" false false "txt" none false)
      (Root.file (SCFile.mk "f.txt" "apple\nbanana\nApple pie\n" false)) none
      (litSeq "apple".data, false) rfl (by decide) (by decide)
  exact h.trans (by decide)

/-- Claim C5 counterexample: with regex mode disabled but case-insensitive
matching enabled (still a "search with regex mode disabled"), the compiled
matcher for the term `"A"` returns true on the line `"a"` although the exact
character sequence `"A"` does not occur in it. -/
theorem c5_counterexample :
    compileTermo (Config.mk "A" false true "txt" none false) = some (litSeq ['A'], true) ∧
    matcherTrue (litSeq ['A'], true) "a" = true ∧
    ¬ ("A".data <:+: "a".data) := by
  decide

/-- Claim C5 amended: with regex mode disabled and case-insensitive matching
disabled, the term is escaped before compilation and the matcher returns true
exactly when the term's character sequence occurs in the line (with
case-insensitive matching the comparison is case-folded instead). -/
theorem c5_amended (cfg : Config) (m : Matcher) (line : String)
    (hr : cfg.regex = false) (hi : cfg.ignorecase = false)
    (hm : compileTermo cfg = some m) :
    matcherTrue m line = true ↔ cfg.termo.data <:+: line.data := by
  rw [compileTermo_noRegex cfg hr, hi] at hm
  obtain rfl : (litSeq cfg.termo.data, false) = m := Option.some.inj hm
  exact rsearch_litSeq cfg.termo.data line.data

/-- Witness for the amended claim C5: a literal search for `"a.b"` does not
match the line `"axb"`. -/
theorem c5_amended_witness :
    matcherTrue (litSeq "a.b".data, false) "axb" = false := by
  have h := c5_amended (Config.mk "a.b" false false "txt" none false)
      (litSeq "a.b".data, false) "axb" rfl rfl (by decide)
  have hn : ¬ ("a.b".data <:+: "axb".data) := by decide
  cases hmt : matcherTrue (litSeq "a.b".data, false) "axb"
  · rfl
  · exact absurd (h.mp hmt) hn

/-- Claim C8: when the root path is an existing regular file, enumeration
returns exactly the singleton of that file, for every configured extension
(the extension filter is bypassed). -/
theorem c8_singleton_file_root (f : SCFile) (ext : String) :
    ler_arquivos (Root.file f) ext = [f] := rfl

/-- Witness for claim C8: the specification's example — enumerating the file
path `x.csv` with extension `txt` returns exactly that file. -/
theorem c8_singleton_file_root_witness :
    ler_arquivos (Root.file (SCFile.mk "x.csv" "" false)) "txt" =
      [SCFile.mk "x.csv" "" false] :=
  c8_singleton_file_root (SCFile.mk "x.csv" "" false) "txt"

/-- Claim C4 counterexample: a streaming-mode file that fails mid-scan after
producing one matching line contributes that match to the total: the run over
the failing file plus a good file reports 2 matches, while the same run
without the failing file reports 1 — so the failing file's contribution is 1,
not the 0 the claim states. -/
theorem c4_counterexample :
    (mainRun (Config.mk "match" false false "txt" none false)
        (Root.dir [DirEntry.mk (SCFile.mk "a.txt" "match\n" true) true,
          DirEntry.mk (SCFile.mk "b.txt" "match\n" false) true]) none).total = some 2 ∧
    (mainRun (Config.mk "match" false false "txt" none false)
        (Root.dir [DirEntry.mk (SCFile.mk "b.txt" "match\n" false) true]) none).total =
      some 1 := by
  decide

/-- Claim C4 amended: on a read/decode failure the line source emits exactly
one terminal `none` sentinel after the lines produced before the failure (no
lines at all in buffered mode, where `read_text` is atomic).  In every
collector mode the sentinel is skipped — never counted, and never written in
streaming save mode, the only mode that writes — the failure is not fatal and
processing continues with the remaining files: the reported total is the sum
of the per-file contributions over all files, each file — including a failing
one — contributing exactly the truthy matches among the lines it produced
before failing, and in streaming save mode the destination content is the
concatenation of exactly those per-file matched lines (in buffered save mode
nothing is written at all and the destination keeps its prior state). -/
theorem c4_amended (cfg : Config) (root : Root) (prior : Option String) (m : Matcher)
    (hm : compileTermo cfg = some m) (hne : ler_arquivos root cfg.extensao ≠ []) :
    (∀ f : SCFile, f.err = true →
      ∃ ls : List String, ler_arquivo cfg.buffer f = ls.map some ++ [none] ∧
        (cfg.buffer = true → ls = []) ∧
        perFileMatchedLines m cfg.buffer f =
          ls.filter (fun s => truthy (buscar_termo s m))) ∧
    (mainRun cfg root prior).error = none ∧
    (mainRun cfg root prior).total =
      some (((ler_arquivos root cfg.extensao).map (perFileMatched m cfg.buffer)).sum) ∧
    (∀ d : String, cfg.salvar = some d → cfg.buffer = false →
      (mainRun cfg root prior).dest =
        some (joinedNL ((ler_arquivos root cfg.extensao).foldr
          (fun f acc => perFileMatchedLines m false f ++ acc) []))) ∧
    (∀ d : String, cfg.salvar = some d → cfg.buffer = true →
      (mainRun cfg root prior).dest = prior) := by
  refine ⟨?_, ?_⟩
  · intro f hf
    cases hb : cfg.buffer with
    | true =>
      refine ⟨[], ?_, fun _ => rfl, ?_⟩
      · simp [ler_arquivo, hf]
      · simp [perFileMatchedLines, ler_arquivo, hf]
    | false =>
      refine ⟨(streamLinesRaw f.raw.data).map (fun l => String.mk (pyStrip l)), ?_,
        fun h => absurd h (by simp), ?_⟩
      · simp [ler_arquivo, hf, List.map_map, Function.comp]
      · have hm2 : (fun l => some (String.mk (pyStrip l))) =
            some ∘ (fun l => String.mk (pyStrip l)) := rfl
        simp [perFileMatchedLines, ler_arquivo, hf, List.filterMap_append, hm2,
          List.filterMap_eq_map]
  · rcases hsalv : cfg.salvar with _ | d0
    · rw [mainRun_noSink cfg root prior m hsalv hm hne]
      refine ⟨rfl, ?_, ?_, ?_⟩
      · show some (countAll m cfg.buffer (ler_arquivos root cfg.extensao)) = _
        rw [countAll_eq_sum]
      · intro d hd
        exact Option.noConfusion hd
      · intro d hd
        exact Option.noConfusion hd
    · cases hb : cfg.buffer with
      | true =>
        rw [mainRun_bufferedSave cfg root prior m d0 hsalv hb hm hne]
        refine ⟨rfl, ?_, ?_, ?_⟩
        · show some (collectBuffered m (ler_arquivos root cfg.extensao)).length = _
          rw [collectBuffered_eq, matchedLines_length_sum]
        · intro d _ hbf
          exact Bool.noConfusion hbf
        · intro d _ _
          rfl
      | false =>
        rw [mainRun_streamSave cfg root prior m d0 hsalv hb hm hne]
        refine ⟨rfl, ?_, ?_, ?_⟩
        · show some (streamSave m (ler_arquivos root cfg.extensao)).1 = _
          rw [streamSave_eq, matchedLines_length_sum]
        · intro d _ _
          show some (streamSave m (ler_arquivos root cfg.extensao)).2 = _
          rw [streamSave_eq, matchedLines_concat]
        · intro d _ hbt
          exact Bool.noConfusion hbt

/-- Witness for the amended claim C4 at a concrete streaming-save run with one
failing and one good file: the failing file's pre-failure match is counted and
written, the sentinel is not, and the second file is still processed. -/
theorem c4_amended_witness :
    (mainRun (Config.mk "match" false false "txt" (some "o.txt") false)
        (Root.dir [DirEntry.mk (SCFile.mk "c.txt" "match\n" true) true,
          DirEntry.mk (SCFile.mk "d.txt" "match\n" false) true]) none).total = some 2 ∧
    (mainRun (Config.mk "match" false false "txt" (some "o.txt") false)
        (Root.dir [DirEntry.mk (SCFile.mk "c.txt" "match\n" true) true,
          DirEntry.mk (SCFile.mk "d.txt" "match\n" false) true]) none).dest =
      some "match\nmatch\n" := by
  have h := c4_amended (Config.mk "match" false false "txt" (some "o.txt") false)
      (Root.dir [DirEntry.mk (SCFile.mk "c.txt" "match\n" true) true,
        DirEntry.mk (SCFile.mk "d.txt" "match\n" false) true]) none
      (litSeq "match".data, false) (by decide) (by decide)
  exact ⟨h.2.2.1.trans (by decide), (h.2.2.2.1 "o.txt" rfl rfl).trans (by decide)⟩

/-- Claim C6 counterexample: for a file containing a vertical-tab character,
buffered mode splits it into two lines while streaming mode yields a single
line — the two modes differ in line structure, not only in whitespace
trimming. -/
theorem c6_counterexample :
    ler_arquivo true (SCFile.mk "f.txt" "a\x0Bb" false) = [some "a", some "b"] ∧
    ler_arquivo false (SCFile.mk "f.txt" "a\x0Bb" false) = [some "a\x0Bb"] ∧
    ler_arquivo false (SCFile.mk "f.txt" "a\x0Bb" false) ≠
      (ler_arquivo true (SCFile.mk "f.txt" "a\x0Bb" false)).map
        (Option.map (fun s => String.mk (pyStrip s.data))) := by
  decide

/-- Claim C6 amended: for a readable file whose text contains no line-boundary
character beyond `'\n'` and `'\r'` (no vertical tab, form feed, file/group/
record separators, NEL or Unicode line/paragraph separators), the two modes
differ only in whitespace trimming: the streaming lines are exactly the
buffered (terminator-stripped) lines with leading and trailing whitespace
removed. -/
theorem c6_amended (f : SCFile) (he : f.err = false)
    (hb : ∀ c ∈ f.raw.data, isPyLineBoundary c = isNLCR c) :
    ler_arquivo false f =
      (ler_arquivo true f).map (Option.map (fun s => String.mk (pyStrip s.data))) := by
  have hsplit : pySplitlines f.raw.data = streamLinesRaw f.raw.data :=
    splitLinesBy_congr isPyLineBoundary isNLCR f.raw.data false [] hb
  have hstream : ler_arquivo false f =
      (streamLinesRaw f.raw.data).map (fun l => some (String.mk (pyStrip l))) := by
    simp [ler_arquivo, he]
  have hbuf : ler_arquivo true f = (pySplitlines f.raw.data).map (fun l => some (String.mk l)) := by
    simp [ler_arquivo, he]
  rw [hstream, hbuf, hsplit, List.map_map]
  rfl

/-- Witness for the amended claim C6: the specification's example line
`"  hello  "` is yielded untrimmed in buffered mode and trimmed in streaming
mode. -/
theorem c6_amended_witness :
    ler_arquivo false (SCFile.mk "h.txt" "  hello  \n" false) =
      (ler_arquivo true (SCFile.mk "h.txt" "  hello  \n" false)).map
        (Option.map (fun s => String.mk (pyStrip s.data))) ∧
    ler_arquivo true (SCFile.mk "h.txt" "  hello  \n" false) = [some "  hello  "] ∧
    ler_arquivo false (SCFile.mk "h.txt" "  hello  \n" false) = [some "hello"] :=
  ⟨c6_amended (SCFile.mk "h.txt" "  hello  \n" false) rfl (by decide), by decide, by decide⟩

/-- Claim C7 counterexample: the extension string is interpolated into a glob
pattern, so a metacharacter in it is interpreted rather than treated
literally: with extension `"t*t"`, a directory entry named `"a.tt"` is
enumerated although its name does not end with `".t*t"`. -/
theorem c7_counterexample :
    ler_arquivos (Root.dir [DirEntry.mk (SCFile.mk "a.tt" "" false) true]) "t*t" =
      [SCFile.mk "a.tt" "" false] ∧
    ¬ (('.' :: "t*t".data) <:+ "a.tt".data) := by
  decide

/-- Claim C7 amended: for an extension string containing no glob
metacharacter (`*`, `?`, `[`), directory enumeration returns exactly the
descendant regular files whose name ends with a literal dot followed by the
extension, the comparison being an exact, case-sensitive suffix match; an
extension containing metacharacters is instead interpreted as part of the
glob pattern. -/
theorem c7_amended (entries : List DirEntry) (ext : String)
    (hmeta : ∀ c ∈ ext.data, c ≠ '*' ∧ c ≠ '?' ∧ c ≠ '[') :
    ler_arquivos (Root.dir entries) ext =
      (entries.filter (fun e =>
        decide (('.' :: ext.data) <:+ e.file.name.data) && e.isFile)).map
        (fun e => e.file) := by
  have hdir : ler_arquivos (Root.dir entries) ext =
      (entries.filter (fun e =>
        fnmatchList ('*' :: '.' :: ext.data) e.file.name.data && e.isFile)).map
        (fun e => e.file) := rfl
  rw [hdir]
  have hq : ∀ c ∈ '.' :: ext.data, c ≠ '*' ∧ c ≠ '?' := by
    intro c hc
    rcases List.mem_cons.mp hc with rfl | hc
    · exact ⟨by decide, by decide⟩
    · exact ⟨(hmeta c hc).1, (hmeta c hc).2.1⟩
  congr 1
  apply List.filter_congr
  intro e _
  have hiff := fnmatchList_star ('.' :: ext.data) hq e.file.name.data
  congr 1
  calc fnmatchList ('*' :: '.' :: ext.data) e.file.name.data
      = decide (fnmatchList ('*' :: '.' :: ext.data) e.file.name.data = true) := by
        cases fnmatchList ('*' :: '.' :: ext.data) e.file.name.data <;> simp
    _ = decide (('.' :: ext.data) <:+ e.file.name.data) := decide_eq_decide.mpr hiff

/-- Witness for the amended claim C7: the specification's example — a
directory with `a.txt`, `b.txt`, `c.log` enumerated with extension `txt`
yields exactly the two `.txt` files. -/
theorem c7_amended_witness :
    ler_arquivos (Root.dir [DirEntry.mk (SCFile.mk "a.txt" "" false) true,
        DirEntry.mk (SCFile.mk "b.txt" "" false) true,
        DirEntry.mk (SCFile.mk "c.log" "" false) true]) "txt" =
      (([DirEntry.mk (SCFile.mk "a.txt" "" false) true,
        DirEntry.mk (SCFile.mk "b.txt" "" false) true,
        DirEntry.mk (SCFile.mk "c.log" "" false) true].filter (fun e =>
          decide (('.' :: "txt".data) <:+ e.file.name.data) && e.isFile)).map
          (fun e => e.file)) ∧
    ler_arquivos (Root.dir [DirEntry.mk (SCFile.mk "a.txt" "" false) true,
        DirEntry.mk (SCFile.mk "b.txt" "" false) true,
        DirEntry.mk (SCFile.mk "c.log" "" false) true]) "txt" =
      [SCFile.mk "a.txt" "" false, SCFile.mk "b.txt" "" false] :=
  ⟨c7_amended [DirEntry.mk (SCFile.mk "a.txt" "" false) true,
      DirEntry.mk (SCFile.mk "b.txt" "" false) true,
      DirEntry.mk (SCFile.mk "c.log" "" false) true] "txt" (by decide), by decide⟩

/-- Claim C9 counterexample: in streaming save mode with the (valid) empty
literal term, the empty produced line is matched by the pattern but is
neither counted nor written (truthiness check), so the destination content is
`"a\n"` while the matched lines each followed by a newline would give
`"a\n\n"`. -/
theorem c9_counterexample :
    (mainRun (Config.mk "" false false "txt" (some "out.txt") false)
        (Root.file (SCFile.mk "f.txt" "a\n\n" false)) none).dest = some "a\n" ∧
    compileTermo (Config.mk "" false false "txt" (some "out.txt") false) =
      some (litSeq [], false) ∧
    joinedNL ((producedLines false (ler_arquivos
        (Root.file (SCFile.mk "f.txt" "a\n\n" false)) "txt")).filter
        (fun s => matcherTrue (litSeq [], false) s)) = "a\n\n" ∧
    ("a\n" : String) ≠ "a\n\n" := by
  decide

/-- Claim C9 amended: in streaming save mode the destination is truncated and
its final content equals exactly the non-empty matched lines in discovery
order, each followed by one newline; the content does not depend on the
destination's prior state, so repeated identical runs produce byte-identical
destination files. -/
theorem c9_amended (cfg : Config) (root : Root) (prior : Option String) (m : Matcher)
    (d : String) (hs : cfg.salvar = some d) (hb : cfg.buffer = false)
    (hm : compileTermo cfg = some m) (hne : ler_arquivos root cfg.extensao ≠ []) :
    (mainRun cfg root prior).dest =
      some (joinedNL ((producedLines false (ler_arquivos root cfg.extensao)).filter
        (fun s => matcherTrue m s && !s.data.isEmpty))) := by
  rw [mainRun_streamSave cfg root prior m d hs hb hm hne]
  show some (streamSave m (ler_arquivos root cfg.extensao)).2 = _
  rw [streamSave_eq]
  have hfil : matchedLines m false (ler_arquivos root cfg.extensao) =
      (producedLines false (ler_arquivos root cfg.extensao)).filter
        (fun s => matcherTrue m s && !s.data.isEmpty) := by
    unfold matchedLines
    exact List.filter_congr (fun s _ => truthy_buscar s m)
  rw [hfil]

/-- Witness for the amended claim C9: a run over a previously non-empty
destination produces exactly the matched line followed by one newline. -/
theorem c9_amended_witness :
    (mainRun (Config.mk "a" false false "txt" (some "o.txt") false)
        (Root.file (SCFile.mk "f.txt" "a\nb\n" false)) (some "junk")).dest =
      some "a\n" := by
  have h := c9_amended (Config.mk "a" false false "txt" (some "o.txt") false)
      (Root.file (SCFile.mk "f.txt" "a\nb\n" false)) (some "junk")
      (litSeq "a".data, false) "o.txt" rfl rfl (by decide) (by decide)
  exact h.trans (by decide)

/-- Claim C10: in streaming save mode (with a compilable pattern and at least
one enumerated candidate) the destination is opened — truncating it — before
any candidate file is scanned, and a run in which no produced line matches
leaves the destination as an empty file, replacing any previous content. -/
theorem c10_stream_save_truncates_first (cfg : Config) (root : Root)
    (prior : Option String) (m : Matcher) (d : String) (hs : cfg.salvar = some d)
    (hb : cfg.buffer = false) (hm : compileTermo cfg = some m)
    (hne : ler_arquivos root cfg.extensao ≠ []) :
    (mainRun cfg root prior).events =
      Event.enumerate (ler_arquivos root cfg.extensao).length :: Event.openDest ::
        (ler_arquivos root cfg.extensao).map (fun f => Event.readFile f.name) ∧
    ((producedLines false (ler_arquivos root cfg.extensao)).filter
        (fun s => matcherTrue m s) = [] →
      (mainRun cfg root prior).dest = some "") := by
  rw [mainRun_streamSave cfg root prior m d hs hb hm hne]
  refine ⟨rfl, fun hz => ?d⟩
  show some (streamSave m (ler_arquivos root cfg.extensao)).2 = some ""
  rw [streamSave_eq]
  have hsub : matchedLines m false (ler_arquivos root cfg.extensao) = [] := by
    unfold matchedLines
    rw [List.filter_eq_nil_iff] at hz ⊢
    intro s hsl
    have hms := hz s hsl
    simp only [Bool.not_eq_true] at hms ⊢
    rw [truthy_buscar, hms, Bool.false_and]
  rw [hsub]
  rfl

/-- Witness for claim C10: a no-match streaming-save run over a previously
non-empty destination opens the destination before reading the file and
leaves it empty. -/
theorem c10_witness :
    (mainRun (Config.mk "zzz" false false "txt" (some "o.txt") false)
        (Root.file (SCFile.mk "f.txt" "a\n" false)) (some "junk")).events =
      [Event.enumerate 1, Event.openDest, Event.readFile "f.txt"] ∧
    (mainRun (Config.mk "zzz" false false "txt" (some "o.txt") false)
        (Root.file (SCFile.mk "f.txt" "a\n" false)) (some "junk")).dest = some "" := by
  have h := c10_stream_save_truncates_first
      (Config.mk "zzz" false false "txt" (some "o.txt") false)
      (Root.file (SCFile.mk "f.txt" "a\n" false)) (some "junk")
      (litSeq "zzz".data, false) "o.txt" rfl rfl (by decide) (by decide)
  exact ⟨h.1.trans (by decide), h.2 (by decide)⟩

end SearchCloud
